import Mathlib

/-!
Shallow embedding of `tpprl/exp_sampler.py`: the `CDFSampler` base class and
its two concrete intensity families (`ExpCDFSampler`, `SigmoidCDFSampler`).

Machine floats are modelled as real numbers; `np.inf` (the "no further event"
sentinel returned by `generate_sample`) is modelled as `⊤ : WithTop ℝ`.
Python exceptions (the `assert` in `calc_LL`, the `IndexError` raised by
`is_own_event[-1]` on an empty list) are modelled with `Except PyError`;
operations whose bodies cannot raise always return `Except.ok`.
The numpy `RandomState` is modelled as a stream `rng : ℕ → ℝ` together with a
cursor `rngIdx`; each call to `rand()` reads `rng rngIdx` and advances the
cursor.
-/

namespace Tpprl

/-- Python exceptions that the embedded code can raise. -/
inductive PyError where
  | assertionError (msg : String)
  | indexError

/-- The mutable attributes of a `CDFSampler` instance (base class plus the
`k` attribute that the `SigmoidCDFSampler` subclass adds; `wt` and `w` are
two distinct attributes in the source, both initialised to the same value).
The exponential-family methods read `self.w` in `cdf`/`generate_sample` and
`self.wt` in `int_u`/`log_u`/`int_u_2`, exactly as the source does. -/
structure CDFSampler where
  vt : List ℝ
  bt : ℝ
  wt : ℝ
  w : ℝ
  k : ℝ
  Q : ℝ
  u_unif : ℝ
  c : ℝ
  t0 : ℝ
  h : List ℝ
  rng : ℕ → ℝ
  rngIdx : ℕ

/-- `np.dot` of two (squeezed) vectors, as used in `self.vt.dot(self.h)`. -/
def dot (a b : List ℝ) : ℝ := (List.zipWith (fun x y => x * y) a b).sum

/-- `CDFSampler.reset_only_sample`: advance the cached bias by linear time
decay, re-anchor `t0`, force a fresh uniform draw with `Q = 1.0`, and return
`generate_sample()` on the updated state together with that state. -/
def CDFSampler.reset_only_sample (gen : CDFSampler → WithTop ℝ)
    (s : CDFSampler) (cur_time : ℝ) : WithTop ℝ × CDFSampler :=
  let s1 : CDFSampler :=
    { s with c := s.c + s.w * (cur_time - s.t0), t0 := cur_time,
             u_unif := s.rng s.rngIdx, rngIdx := s.rngIdx + 1, Q := 1 }
  (gen s1, s1)

/-- `CDFSampler.reset`: on `reset_sample = true` draw a fresh uniform variate
and set `Q = 1.0`; otherwise multiply `Q` by `1 - self.cdf(cur_time)`
(evaluated on the pre-update state); then store the new hidden state, set
`c = vt·h + bt`, re-anchor `t0 = cur_time` and return `generate_sample()`.
The body contains no `assert`/`raise`, so it always returns `Except.ok`. -/
def CDFSampler.reset (cdf : CDFSampler → ℝ → ℝ) (gen : CDFSampler → WithTop ℝ)
    (s : CDFSampler) (cur_time : ℝ) (init_h : List ℝ) (reset_sample : Bool) :
    Except PyError (WithTop ℝ × CDFSampler) :=
  let s1 : CDFSampler :=
    if reset_sample then
      { s with u_unif := s.rng s.rngIdx, rngIdx := s.rngIdx + 1, Q := 1 }
    else
      { s with Q := s.Q * (1 - cdf s cur_time) }
  let s2 : CDFSampler :=
    { s1 with h := init_h, c := dot s1.vt init_h + s1.bt, t0 := cur_time }
  Except.ok (gen s2, s2)

/-- `CDFSampler.register_event`: thin wrapper over `reset` with
`reset_sample = own_event`. -/
def CDFSampler.register_event (cdf : CDFSampler → ℝ → ℝ)
    (gen : CDFSampler → WithTop ℝ) (s : CDFSampler) (time : ℝ)
    (new_h : List ℝ) (own_event : Bool) :
    Except PyError (WithTop ℝ × CDFSampler) :=
  CDFSampler.reset cdf gen s time new_h own_event

/-- `CDFSampler.calc_quad_loss`: `sum(int_u_2(dt, c) for dt, c in
zip(event_time_deltas, c_is))`.  `int_u_2` is supplied by the subclass. -/
def CDFSampler.calc_quad_loss (int_u_2 : ℝ → ℝ → ℝ)
    (event_time_deltas c_is : List ℝ) : ℝ :=
  ((event_time_deltas.zip c_is).map (fun p => int_u_2 p.1 p.2)).sum

/-- Python's three-argument `zip`, truncating to the shortest list. -/
def zip3 : List ℝ → List ℝ → List Bool → List (ℝ × ℝ × Bool)
  | x :: xs, y :: ys, z :: zs => (x, y, z) :: zip3 xs ys zs
  | _, _, _ => []

/-- `CDFSampler.calc_LL`: asserts `not is_own_event[-1]` (an empty list makes
the `[-1]` subscript raise `IndexError`), then returns the sum of
`log_u(dt, c)` over the zipped triples whose flag is set minus the sum of
`int_u(dt, c)` over the zipped pairs. -/
def CDFSampler.calc_LL (log_u int_u : ℝ → ℝ → ℝ)
    (event_time_deltas c_is : List ℝ) (is_own_event : List Bool) :
    Except PyError ℝ :=
  match is_own_event.getLast? with
  | none => Except.error PyError.indexError
  | some b =>
    if b then
      Except.error (PyError.assertionError "The last entry cannot be an event.")
    else
      Except.ok
        (((((zip3 event_time_deltas c_is is_own_event).filter
              (fun t => t.2.2)).map (fun t => log_u t.1 t.2.1)).sum)
          - (((event_time_deltas.zip c_is).map (fun p => int_u p.1 p.2)).sum))

noncomputable section

/-- `ExpCDFSampler.cdf`:
`1 - exp((exp(c)/w) * (1 - exp(w*(t - t0))))`. -/
def ExpCDFSampler.cdf (s : CDFSampler) (t : ℝ) : ℝ :=
  1 - Real.exp ((Real.exp s.c / s.w) * (1 - Real.exp (s.w * (t - s.t0))))

/-- `ExpCDFSampler.generate_sample`: solves
`D = 1 - (w/exp(c)) * log((1 - u_unif)/Q)` and returns
`t0 + (1/w)*log(D)` when `D > 0`, else `np.inf`. -/
def ExpCDFSampler.generate_sample (s : CDFSampler) : WithTop ℝ :=
  let D : ℝ := 1 - (s.w / Real.exp s.c) * Real.log ((1 - s.u_unif) / s.Q)
  if D ≤ 0 then ⊤ else ((s.t0 + (1 / s.w) * Real.log D : ℝ) : WithTop ℝ)

/-- `ExpCDFSampler.int_u`: `(1/wt) * (exp(c + wt*dt) - exp(c))`. -/
def ExpCDFSampler.int_u (s : CDFSampler) (dt c : ℝ) : ℝ :=
  (1 / s.wt) * (Real.exp (c + s.wt * dt) - Real.exp c)

/-- `ExpCDFSampler.log_u`: `c + wt*dt`. -/
def ExpCDFSampler.log_u (s : CDFSampler) (dt c : ℝ) : ℝ := c + s.wt * dt

/-- `ExpCDFSampler.int_u_2`:
`(1/(2*wt)) * (exp(2c + 2*wt*dt) - exp(2c))`. -/
def ExpCDFSampler.int_u_2 (s : CDFSampler) (dt c : ℝ) : ℝ :=
  (1 / (2 * s.wt)) * (Real.exp (2 * c + 2 * s.wt * dt) - Real.exp (2 * c))

/-- `SigmoidCDFSampler.cdf`:
`1 - ((1 + exp(c)) / (1 + exp(c + wt*(t - t0)))) ** (k/wt)`
(`**` is real exponentiation, modelled by `Real.rpow`). -/
def SigmoidCDFSampler.cdf (s : CDFSampler) (t : ℝ) : ℝ :=
  1 - ((1 + Real.exp s.c) / (1 + Real.exp (s.c + s.wt * (t - s.t0))))
        ^ (s.k / s.wt)

/-- `SigmoidCDFSampler.generate_sample`: solves
`D = (1 + exp(c)) * ((1 - u_unif)/Q) ** (-k/wt) - 1` and returns
`t0 + (log(D) - c)/wt` when `D > 0`, else `np.inf`. -/
def SigmoidCDFSampler.generate_sample (s : CDFSampler) : WithTop ℝ :=
  let D : ℝ :=
    (1 + Real.exp s.c) * ((1 - s.u_unif) / s.Q) ^ (-s.k / s.wt) - 1
  if D ≤ 0 then ⊤ else ((s.t0 + (Real.log D - s.c) / s.wt : ℝ) : WithTop ℝ)

/-- `SigmoidCDFSampler.log_u`: `log(1 / (1 + exp(-(c + wt*dt))))`. -/
def SigmoidCDFSampler.log_u (s : CDFSampler) (dt c : ℝ) : ℝ :=
  Real.log (1 / (1 + Real.exp (-(c + s.wt * dt))))

/-- `SigmoidCDFSampler.int_u`:
`(k/wt) * (log1p(exp(c + wt*dt)) - log1p(exp(c)))`. -/
def SigmoidCDFSampler.int_u (s : CDFSampler) (dt c : ℝ) : ℝ :=
  (s.k / s.wt) * (Real.log (1 + Real.exp (c + s.wt * dt))
                    - Real.log (1 + Real.exp c))

/-- `SigmoidCDFSampler.int_u_2`:
`(k^2/wt) * (1/(1+exp(c+wt*dt)) + log1p(exp(c+wt*dt))
             - 1/(1+exp(c)) - log1p(exp(c)))`. -/
def SigmoidCDFSampler.int_u_2 (s : CDFSampler) (dt c : ℝ) : ℝ :=
  (s.k ^ 2 / s.wt) * (1 / (1 + Real.exp (c + s.wt * dt))
    + Real.log (1 + Real.exp (c + s.wt * dt))
    - 1 / (1 + Real.exp c)
    - Real.log (1 + Real.exp c))

/-- The state-mutating operations of the sampler driver loop. -/
inductive SamplerOp where
  | resetOp (cur_time : ℝ) (init_h : List ℝ) (reset_sample : Bool)
  | registerEventOp (time : ℝ) (new_h : List ℝ) (own_event : Bool)
  | resetOnlySampleOp (cur_time : ℝ)

/-- The time argument of an operation. -/
def SamplerOp.time : SamplerOp → ℝ
  | .resetOp t _ _ => t
  | .registerEventOp t _ _ => t
  | .resetOnlySampleOp t => t

/-- Run one driver operation, keeping only the resulting sampler state. -/
def step (cdf : CDFSampler → ℝ → ℝ) (gen : CDFSampler → WithTop ℝ)
    (s : CDFSampler) : SamplerOp → Except PyError CDFSampler
  | .resetOp t h rs => (CDFSampler.reset cdf gen s t h rs).map Prod.snd
  | .registerEventOp t h own =>
      (CDFSampler.register_event cdf gen s t h own).map Prod.snd
  | .resetOnlySampleOp t =>
      Except.ok (CDFSampler.reset_only_sample gen s t).2

/-- Run a sequence of driver operations. -/
def runOps (cdf : CDFSampler → ℝ → ℝ) (gen : CDFSampler → WithTop ℝ) :
    CDFSampler → List SamplerOp → Except PyError CDFSampler
  | s, [] => Except.ok s
  | s, op :: ops =>
    match step cdf gen s op with
    | Except.ok s1 => runOps cdf gen s1 ops
    | Except.error e => Except.error e

/-- The driver contract: operation times are non-decreasing, starting at or
after the current anchor. -/
def opsValid : ℝ → List SamplerOp → Prop
  | _, [] => True
  | t, op :: ops => t ≤ op.time ∧ opsValid op.time ops

/-- A fixed uniform stream for the concrete test states. -/
def halfRng : ℕ → ℝ := fun _ => 1 / 2

/-- Exponential sampler state anchored at `t0 = 1`. -/
def c2State : CDFSampler :=
  { vt := [1], bt := 0, wt := 1, w := 1, k := 1, Q := 1, u_unif := 1 / 2,
    c := 0, t0 := 1, h := [0], rng := halfRng, rngIdx := 0 }

/-- Exponential sampler state with `w = 1`, `c = 0`, `u_unif = 1/2`, `Q = 1`,
anchored at `t0 = 0`. -/
def c4State : CDFSampler :=
  { vt := [1], bt := 0, wt := 1, w := 1, k := 1, Q := 1, u_unif := 1 / 2,
    c := 0, t0 := 0, h := [0], rng := halfRng, rngIdx := 0 }

/-- Exponential sampler state with `w = -1`, very negative bias `c = -10`,
and a uniform variate close to 1: the decay variable `D` is non-positive. -/
def degenerateState : CDFSampler :=
  { vt := [1], bt := 0, wt := -1, w := -1, k := 1, Q := 1,
    u_unif := 1 - Real.exp (-1), c := -10, t0 := 0, h := [0],
    rng := halfRng, rngIdx := 0 }

/-- Sigmoid sampler state with `k = 2`, `wt = 1`, `c = 0`, `u_unif = 1/2`,
`Q = 1`, anchored at `t0 = 0`. -/
def sigmoidBugState : CDFSampler :=
  { vt := [1], bt := 0, wt := 1, w := 1, k := 2, Q := 1, u_unif := 1 / 2,
    c := 0, t0 := 0, h := [0], rng := halfRng, rngIdx := 0 }

/-- Exponential sampler state with `Q = 1` anchored at `t0 = 0`. -/
def q8State : CDFSampler :=
  { vt := [1], bt := 0, wt := 1, w := 1, k := 1, Q := 1, u_unif := 1 / 2,
    c := 0, t0 := 0, h := [0], rng := halfRng, rngIdx := 0 }

/-- Claim C3: `reset(cur_time, new_h, reset_sample)` draws a fresh uniform
variate and sets `Q = 1` when `reset_sample` is true, and otherwise keeps the
uniform variate and multiplies `Q` by `1 - cdf(cur_time)` evaluated with the
pre-call bias and pre-call anchor; in both cases it then recomputes
`c = vt·new_h + bt`, sets `t0 = cur_time`, and returns `generate_sample()`
on the updated state. -/
theorem reset_branches_spec (cdf : CDFSampler → ℝ → ℝ)
    (gen : CDFSampler → WithTop ℝ) (s : CDFSampler) (cur_time : ℝ)
    (new_h : List ℝ) :
    (∃ s1 : CDFSampler,
      CDFSampler.reset cdf gen s cur_time new_h true =
        Except.ok (gen s1, s1) ∧
      s1.u_unif = s.rng s.rngIdx ∧ s1.rngIdx = s.rngIdx + 1 ∧ s1.Q = 1 ∧
      s1.c = dot s.vt new_h + s.bt ∧ s1.t0 = cur_time ∧ s1.h = new_h) ∧
    (∃ s1 : CDFSampler,
      CDFSampler.reset cdf gen s cur_time new_h false =
        Except.ok (gen s1, s1) ∧
      s1.u_unif = s.u_unif ∧ s1.rngIdx = s.rngIdx ∧
      s1.Q = s.Q * (1 - cdf s cur_time) ∧
      s1.c = dot s.vt new_h + s.bt ∧ s1.t0 = cur_time ∧ s1.h = new_h) :=
  ⟨⟨_, rfl, rfl, rfl, rfl, rfl, rfl, rfl⟩,
   ⟨_, rfl, rfl, rfl, rfl, rfl, rfl, rfl⟩⟩

/-- Claim C9: `reset_only_sample(cur_time)` advances the cached bias to
`c + w·(cur_time - t0)`, re-anchors `t0` to `cur_time`, sets `Q = 1`, draws a
fresh uniform variate, returns `generate_sample()` on the updated state, and
leaves the stored hidden state `h` unchanged. -/
theorem reset_only_sample_spec (gen : CDFSampler → WithTop ℝ)
    (s : CDFSampler) (cur_time : ℝ) :
    ∃ s1 : CDFSampler,
      CDFSampler.reset_only_sample gen s cur_time = (gen s1, s1) ∧
      s1.c = s.c + s.w * (cur_time - s.t0) ∧ s1.t0 = cur_time ∧
      s1.Q = 1 ∧ s1.u_unif = s.rng s.rngIdx ∧ s1.rngIdx = s.rngIdx + 1 ∧
      s1.h = s.h :=
  ⟨_, rfl, rfl, rfl, rfl, rfl, rfl, rfl⟩

/-- Claim C7: for both families `generate_sample` returns `np.inf` (modelled
as `⊤`) exactly when the decay variable `D` is non-positive; the value is
propagated as a normal return (`reset` never raises); and `D ≤ 0` is
reachable for the exponential family. -/
theorem generate_sample_infinity_iff_D_nonpos :
    (∀ s : CDFSampler, ExpCDFSampler.generate_sample s = ⊤ ↔
      1 - (s.w / Real.exp s.c) * Real.log ((1 - s.u_unif) / s.Q) ≤ 0) ∧
    (∀ s : CDFSampler, SigmoidCDFSampler.generate_sample s = ⊤ ↔
      (1 + Real.exp s.c) * ((1 - s.u_unif) / s.Q) ^ (-s.k / s.wt) - 1 ≤ 0) ∧
    (∀ (cdf : CDFSampler → ℝ → ℝ) (gen : CDFSampler → WithTop ℝ)
        (s : CDFSampler) (t : ℝ) (h : List ℝ) (rs : Bool),
      ∃ v, CDFSampler.reset cdf gen s t h rs = Except.ok v) ∧
    ExpCDFSampler.generate_sample degenerateState = ⊤ := by
  refine ⟨fun s => ?_, fun s => ?_, fun cdf gen s t h rs => ⟨_, rfl⟩, ?_⟩
  · simp only [ExpCDFSampler.generate_sample]
    split_ifs with hD
    · simp [hD]
    · exact iff_of_false WithTop.coe_ne_top hD
  · simp only [SigmoidCDFSampler.generate_sample]
    split_ifs with hD
    · simp [hD]
    · exact iff_of_false WithTop.coe_ne_top hD
  · simp only [ExpCDFSampler.generate_sample, degenerateState]
    rw [if_pos]
    have h1 : (1 - (1 - Real.exp (-1))) / (1 : ℝ) = Real.exp (-1) := by
      ring
    rw [h1, Real.log_exp, Real.exp_neg]
    have h10 : (1 : ℝ) ≤ Real.exp 10 := Real.one_le_exp (by norm_num)
    have hpos : (0 : ℝ) < Real.exp 10 := Real.exp_pos 10
    have h2 : (-1 : ℝ) / (Real.exp 10)⁻¹ * -1 = Real.exp 10 := by
      field_simp
    rw [h2]
    linarith

/-- For the exponential family, evaluating the cdf strictly before the anchor
yields a negative value (for any nonzero rate). -/
lemma exp_cdf_neg_of_lt (s : CDFSampler) (t : ℝ) (hw : s.w ≠ 0)
    (ht : t < s.t0) : ExpCDFSampler.cdf s t < 0 := by
  unfold ExpCDFSampler.cdf
  have hx : 0 < Real.exp s.c / s.w * (1 - Real.exp (s.w * (t - s.t0))) := by
    rcases hw.lt_or_lt with hneg | hpos
    · have h1 : 0 < s.w * (t - s.t0) := mul_pos_of_neg_of_neg hneg (by linarith)
      have h2 : 1 < Real.exp (s.w * (t - s.t0)) := Real.one_lt_exp_iff.mpr h1
      have h3 : Real.exp s.c / s.w < 0 :=
        div_neg_of_pos_of_neg (Real.exp_pos _) hneg
      exact mul_pos_of_neg_of_neg h3 (by linarith)
    · have h1 : s.w * (t - s.t0) < 0 := mul_neg_of_pos_of_neg hpos (by linarith)
      have h2 : Real.exp (s.w * (t - s.t0)) < 1 := Real.exp_lt_one_iff.mpr h1
      have h3 : 0 < Real.exp s.c / s.w := div_pos (Real.exp_pos _) hpos
      exact mul_pos h3 (by linarith)
  have := Real.one_lt_exp_iff.mpr hx
  linarith

/-- Claim C2 counterexample: calling `reset` (and `register_event`) with
`cur_time = 0` strictly earlier than the anchor `t0 = 1` returns normally
(`Except.ok`) instead of failing with an assertion-style precondition
violation. -/
theorem reset_accepts_earlier_time_concrete :
    (0 : ℝ) < c2State.t0 ∧
    (∃ v, CDFSampler.reset ExpCDFSampler.cdf ExpCDFSampler.generate_sample
        c2State 0 [0] false = Except.ok v) ∧
    (∃ v, CDFSampler.register_event ExpCDFSampler.cdf
        ExpCDFSampler.generate_sample c2State 0 [0] false = Except.ok v) :=
  ⟨by norm_num [c2State], ⟨_, rfl⟩, ⟨_, rfl⟩⟩

/-- Claim C2 amended: `reset` and `register_event` perform no check of the
time against the current anchor: a call with `cur_time < t0` (here with
`reset_sample = false`, a foreign event) is silently accepted, returns
`Except.ok`, re-anchors `t0` to the earlier time without clamping, and even
inflates `Q` (the exponential cdf is negative there); the only
assertion-style guard lives downstream in the driver. -/
theorem reset_no_time_precondition (s : CDFSampler) (t : ℝ) (new_h : List ℝ)
    (hw : s.w ≠ 0) (hQ : 0 < s.Q) (ht : t < s.t0) :
    ∃ (v : WithTop ℝ) (s1 : CDFSampler),
      CDFSampler.reset ExpCDFSampler.cdf ExpCDFSampler.generate_sample
          s t new_h false = Except.ok (v, s1) ∧
      s1.t0 = t ∧ s.Q < s1.Q := by
  refine ⟨_, _, rfl, rfl, ?_⟩
  have hc := exp_cdf_neg_of_lt s t hw ht
  show s.Q < s.Q * (1 - ExpCDFSampler.cdf s t)
  nlinarith [mul_pos hQ (neg_pos.mpr hc)]

/-- Witness for the amended claim C2 at a concrete state and time. -/
theorem reset_no_time_precondition_witness :
    ∃ (v : WithTop ℝ) (s1 : CDFSampler),
      CDFSampler.reset ExpCDFSampler.cdf ExpCDFSampler.generate_sample
          c2State 0 [0] false = Except.ok (v, s1) ∧
      s1.t0 = 0 ∧ c2State.Q < s1.Q :=
  reset_no_time_precondition c2State 0 [0] (by norm_num [c2State])
    (by norm_num [c2State]) (by norm_num [c2State])

/-- Claim C4: for the exponential family, `generate_sample` returns
`t0 + (1/w)·log D` with `D = 1 - (w/exp c)·log((1-u)/Q)` whenever `D > 0`;
in particular with `w = 1`, `c = 0`, `u_unif = 1/2`, `Q = 1` it returns
exactly `t0 + log(1 - log(1/2))`. -/
theorem exp_generate_sample_formula :
    (∀ s : CDFSampler,
        0 < 1 - s.w / Real.exp s.c * Real.log ((1 - s.u_unif) / s.Q) →
        ExpCDFSampler.generate_sample s =
          ((s.t0 + 1 / s.w *
            Real.log (1 - s.w / Real.exp s.c *
              Real.log ((1 - s.u_unif) / s.Q)) : ℝ) : WithTop ℝ)) ∧
    (∀ s : CDFSampler, s.w = 1 → s.c = 0 → s.u_unif = 1 / 2 → s.Q = 1 →
        ExpCDFSampler.generate_sample s =
          ((s.t0 + Real.log (1 - Real.log (1 / 2)) : ℝ) : WithTop ℝ)) := by
  constructor
  · intro s hD
    simp only [ExpCDFSampler.generate_sample]
    rw [if_neg (by linarith)]
  · intro s hw hc hu hQ
    have hlog : Real.log ((1 : ℝ) / 2) < 0 :=
      Real.log_neg (by norm_num) (by norm_num)
    simp only [ExpCDFSampler.generate_sample, hw, hc, hu, hQ, Real.exp_zero]
    rw [if_neg (by norm_num; linarith)]
    norm_num

/-- Witness for claim C4 at a concrete state with `t0 = 0`. -/
theorem exp_generate_sample_formula_witness :
    ExpCDFSampler.generate_sample c4State =
      (((0 : ℝ) + Real.log (1 - Real.log (1 / 2)) : ℝ) : WithTop ℝ) :=
  exp_generate_sample_formula.2 c4State rfl rfl rfl rfl

/-- Claim C1 fails on the sigmoid family: with `k = 2`, `wt = 1`, `c = 0`,
`t0 = 0`, `u_unif = 1/2`, `Q = 1`, `generate_sample` returns the finite time
`log 7`, but `cdf(log 7) = 15/16 ≠ 1/2 = u`: the inverse-sampling exponent
`-k/wt` does not invert `cdf`, whose inversion requires `-wt/k`.  (The
exponential family does satisfy the round trip; see
`exp_roundtrip_of_valid`.) -/
theorem sigmoid_roundtrip_fails_at_k_two :
    SigmoidCDFSampler.generate_sample sigmoidBugState =
        ((Real.log 7 : ℝ) : WithTop ℝ) ∧
    SigmoidCDFSampler.cdf sigmoidBugState (Real.log 7) = 15 / 16 ∧
    SigmoidCDFSampler.cdf sigmoidBugState (Real.log 7) ≠
      sigmoidBugState.u_unif := by
  have hD : (1 + Real.exp (0 : ℝ)) *
      ((1 - 1 / 2) / 1) ^ (-(2 : ℝ) / 1) - 1 = 7 := by
    rw [Real.exp_zero]
    norm_num
  have h7 : Real.exp ((0 : ℝ) + 1 * (Real.log 7 - 0)) = 7 := by
    norm_num
    exact Real.exp_log (by norm_num)
  have hcdf : SigmoidCDFSampler.cdf sigmoidBugState (Real.log 7) = 15 / 16 := by
    simp only [SigmoidCDFSampler.cdf, sigmoidBugState]
    rw [Real.exp_zero, h7]
    norm_num
  refine ⟨?_, hcdf, ?_⟩
  · simp only [SigmoidCDFSampler.generate_sample, sigmoidBugState]
    rw [hD, if_neg (by norm_num)]
    norm_num
  · rw [hcdf]
    simp only [sigmoidBugState]
    norm_num

/-- The exponential family does satisfy the CDF/inverse-sampling round trip:
whenever `generate_sample` with `Q = 1` returns a finite time `t`,
`cdf t` recovers the uniform variate exactly. -/
lemma exp_roundtrip_of_valid (s : CDFSampler) (t : ℝ) (hw : s.w ≠ 0)
    (hu : 0 < 1 - s.u_unif) (hQ : s.Q = 1)
    (ht : ExpCDFSampler.generate_sample s = ((t : ℝ) : WithTop ℝ)) :
    ExpCDFSampler.cdf s t = s.u_unif := by
  have hec : Real.exp s.c ≠ 0 := (Real.exp_pos s.c).ne'
  simp only [ExpCDFSampler.generate_sample, hQ, div_one] at ht
  set L : ℝ := Real.log (1 - s.u_unif) with hL
  set D : ℝ := 1 - s.w / Real.exp s.c * L with hDdef
  by_cases hD : D ≤ 0
  · rw [if_pos hD] at ht
    exact absurd ht (by simp)
  · rw [if_neg hD] at ht
    push_neg at hD
    have hteq : t = s.t0 + 1 / s.w * Real.log D := by
      exact_mod_cast ht.symm
    unfold ExpCDFSampler.cdf
    rw [hteq]
    have h1 : s.w * (s.t0 + 1 / s.w * Real.log D - s.t0) = Real.log D := by
      field_simp
      ring
    rw [h1, Real.exp_log hD]
    have h2 : Real.exp s.c / s.w * (1 - D) = L := by
      rw [hDdef]
      field_simp
      ring
    rw [h2, hL, Real.exp_log hu]
    ring

/-- For the exponential family, evaluating the cdf at or after the anchor
yields a value in `[0, 1)` (for any nonzero rate). -/
lemma exp_cdf_mem_Ico (s : CDFSampler) (t : ℝ) (hw : s.w ≠ 0)
    (ht : s.t0 ≤ t) :
    0 ≤ ExpCDFSampler.cdf s t ∧ ExpCDFSampler.cdf s t < 1 := by
  unfold ExpCDFSampler.cdf
  have hx : Real.exp s.c / s.w * (1 - Real.exp (s.w * (t - s.t0))) ≤ 0 := by
    rcases hw.lt_or_lt with hneg | hpos
    · have h1 : s.w * (t - s.t0) ≤ 0 :=
        mul_nonpos_iff.mpr (Or.inr ⟨hneg.le, by linarith⟩)
      have h2 : Real.exp (s.w * (t - s.t0)) ≤ 1 := Real.exp_le_one_iff.mpr h1
      have h3 : Real.exp s.c / s.w < 0 :=
        div_neg_of_pos_of_neg (Real.exp_pos _) hneg
      exact mul_nonpos_iff.mpr (Or.inr ⟨h3.le, by linarith⟩)
    · have h1 : 0 ≤ s.w * (t - s.t0) := mul_nonneg hpos.le (by linarith)
      have h2 : 1 ≤ Real.exp (s.w * (t - s.t0)) := Real.one_le_exp h1
      have h3 : 0 < Real.exp s.c / s.w := div_pos (Real.exp_pos _) hpos
      exact mul_nonpos_iff.mpr (Or.inl ⟨h3.le, by linarith⟩)
  have hle := Real.exp_le_one_iff.mpr hx
  have hgt := Real.exp_pos (Real.exp s.c / s.w *
    (1 - Real.exp (s.w * (t - s.t0))))
  constructor <;> linarith

/-- One driver step of the exponential sampler succeeds and preserves
`Q ∈ (0, 1]`, re-anchoring `t0` at the operation's time. -/
lemma step_exp_preserves (s : CDFSampler) (op : SamplerOp) (hw : s.w ≠ 0)
    (hQ0 : 0 < s.Q) (hQ1 : s.Q ≤ 1) (ht : s.t0 ≤ op.time) :
    ∃ s1, step ExpCDFSampler.cdf ExpCDFSampler.generate_sample s op =
        Except.ok s1 ∧
      0 < s1.Q ∧ s1.Q ≤ 1 ∧ s1.t0 = op.time ∧ s1.w = s.w := by
  cases op with
  | resetOp t h rs =>
    cases rs with
    | true => exact ⟨_, rfl, by norm_num, by norm_num, rfl, rfl⟩
    | false =>
      obtain ⟨hc0, hc1⟩ := exp_cdf_mem_Ico s t hw ht
      refine ⟨_, rfl, ?_, ?_, rfl, rfl⟩
      · show 0 < s.Q * (1 - ExpCDFSampler.cdf s t)
        exact mul_pos hQ0 (by linarith)
      · show s.Q * (1 - ExpCDFSampler.cdf s t) ≤ 1
        nlinarith
  | registerEventOp t h own =>
    cases own with
    | true => exact ⟨_, rfl, by norm_num, by norm_num, rfl, rfl⟩
    | false =>
      obtain ⟨hc0, hc1⟩ := exp_cdf_mem_Ico s t hw ht
      refine ⟨_, rfl, ?_, ?_, rfl, rfl⟩
      · show 0 < s.Q * (1 - ExpCDFSampler.cdf s t)
        exact mul_pos hQ0 (by linarith)
      · show s.Q * (1 - ExpCDFSampler.cdf s t) ≤ 1
        nlinarith
  | resetOnlySampleOp t =>
    exact ⟨_, rfl, by norm_num [CDFSampler.reset_only_sample],
      by norm_num [CDFSampler.reset_only_sample], rfl, rfl⟩

/-- Running any valid sequence of driver operations on the exponential
sampler succeeds and keeps `Q ∈ (0, 1]`. -/
lemma runOps_exp_Q (ops : List SamplerOp) :
    ∀ s : CDFSampler, s.w ≠ 0 → 0 < s.Q → s.Q ≤ 1 → opsValid s.t0 ops →
    ∃ s1, runOps ExpCDFSampler.cdf ExpCDFSampler.generate_sample s ops =
        Except.ok s1 ∧ 0 < s1.Q ∧ s1.Q ≤ 1 := by
  induction ops with
  | nil => exact fun s hw h0 h1 _ => ⟨s, rfl, h0, h1⟩
  | cons op ops ih =>
    intro s hw h0 h1 hvalid
    obtain ⟨s1, hstep, hq0, hq1, ht0, hww⟩ :=
      step_exp_preserves s op hw h0 h1 hvalid.1
    obtain ⟨s2, hrun, hq0', hq1'⟩ :=
      ih s1 (hww ▸ hw) hq0 hq1 (by rw [ht0]; exact hvalid.2)
    refine ⟨s2, ?_, hq0', hq1'⟩
    simp only [runOps, hstep]
    exact hrun

/-- Claim C8 amended: `Q` stays in `(0, 1]` from construction across every
valid (time-non-decreasing) sequence of `reset`, `register_event` and
`reset_only_sample` calls, and `Q = 1` immediately after every operation
that drew a fresh uniform variate; the converse direction fails for
zero-length conditioned intervals (see `Q_one_without_fresh_draw`). -/
theorem Q_invariant_amended :
    (∀ (s : CDFSampler) (ops : List SamplerOp),
        s.w ≠ 0 → 0 < s.Q → s.Q ≤ 1 → opsValid s.t0 ops →
        ∃ s1, runOps ExpCDFSampler.cdf ExpCDFSampler.generate_sample s ops =
            Except.ok s1 ∧ 0 < s1.Q ∧ s1.Q ≤ 1) ∧
    (∀ (s : CDFSampler) (t : ℝ) (h : List ℝ),
        Except.map (fun p => p.2.Q)
            (CDFSampler.reset ExpCDFSampler.cdf ExpCDFSampler.generate_sample
              s t h true) = Except.ok 1) ∧
    (∀ (s : CDFSampler) (t : ℝ),
        (CDFSampler.reset_only_sample ExpCDFSampler.generate_sample s t).2.Q
          = 1) :=
  ⟨fun s ops hw h0 h1 hv => runOps_exp_Q ops s hw h0 h1 hv,
   fun _ _ _ => rfl, fun _ _ => rfl⟩

/-- Witness for the amended claim C8: a concrete three-operation run
(fresh reset, conditioned foreign event, look-ahead sample). -/
theorem Q_invariant_amended_witness :
    ∃ s1, runOps ExpCDFSampler.cdf ExpCDFSampler.generate_sample q8State
        [SamplerOp.resetOp 1 [0] true, SamplerOp.registerEventOp 2 [0] false,
         SamplerOp.resetOnlySampleOp 3] = Except.ok s1 ∧
      0 < s1.Q ∧ s1.Q ≤ 1 :=
  Q_invariant_amended.1 q8State _ (by norm_num [q8State])
    (by norm_num [q8State]) (by norm_num [q8State])
    (by norm_num [opsValid, SamplerOp.time, q8State])

/-- Claim C8 counterexample: registering a foreign event at exactly the
current anchor time draws no fresh uniform variate (the rng cursor is
unchanged) yet leaves `Q = 1` afterwards, refuting the claimed
"Q equals 1.0 exactly when the operation drew a fresh uniform variate"
under merely non-decreasing times. -/
theorem Q_one_without_fresh_draw :
    ∃ s1, step ExpCDFSampler.cdf ExpCDFSampler.generate_sample q8State
        (SamplerOp.registerEventOp 0 [0] false) = Except.ok s1 ∧
      s1.Q = 1 ∧ s1.rngIdx = q8State.rngIdx := by
  refine ⟨_, rfl, ?_, rfl⟩
  show q8State.Q * (1 - ExpCDFSampler.cdf q8State 0) = 1
  norm_num [ExpCDFSampler.cdf, q8State, Real.exp_zero]

lemma zip3_cons_cons_cons (d : ℝ) (ds : List ℝ) (c : ℝ) (cs : List ℝ)
    (b : Bool) (bs : List Bool) :
    zip3 (d :: ds) (c :: cs) (b :: bs) = (d, c, b) :: zip3 ds cs bs := rfl

/-- Sum of a function mapped over a two-list `zip`, as an indexed sum over
the common prefix. -/
lemma zip_map_sum (f : ℝ → ℝ → ℝ) :
    ∀ ds cs : List ℝ,
      (((ds.zip cs).map fun p => f p.1 p.2).sum) =
        ∑ i in Finset.range (min ds.length cs.length),
          f (ds.getD i 0) (cs.getD i 0) := by
  intro ds
  induction ds with
  | nil => intro cs; simp
  | cons d ds ih =>
    intro cs
    cases cs with
    | nil => simp
    | cons c cs =>
      rw [List.zip_cons_cons, List.map_cons, List.sum_cons, ih cs,
        List.length_cons, List.length_cons, Nat.succ_min_succ,
        Finset.sum_range_succ']
      simp only [List.getD_cons_succ, List.getD_cons_zero]
      exact add_comm _ _

/-- Sum of the flagged entries of a three-list `zip`, as an indexed sum over
the three-way common prefix. -/
lemma zip3_filter_map_sum (g : ℝ → ℝ → ℝ) :
    ∀ (ds cs : List ℝ) (own : List Bool),
      ((((zip3 ds cs own).filter fun t => t.2.2).map
          fun t => g t.1 t.2.1).sum) =
        ∑ i in Finset.range (min (min ds.length cs.length) own.length),
          if own.getD i false then g (ds.getD i 0) (cs.getD i 0) else 0 := by
  intro ds
  induction ds with
  | nil => intro cs own; cases cs <;> cases own <;> simp [zip3]
  | cons d ds ih =>
    intro cs own
    cases cs with
    | nil => cases own <;> simp [zip3]
    | cons c cs =>
      cases own with
      | nil => simp [zip3]
      | cons b bs =>
        have hlen : min (min (d :: ds).length (c :: cs).length)
            (b :: bs).length =
            min (min ds.length cs.length) bs.length + 1 := by
          simp [Nat.succ_min_succ]
        rw [zip3_cons_cons_cons, hlen, Finset.sum_range_succ']
        simp only [List.getD_cons_succ, List.getD_cons_zero]
        cases b with
        | false =>
          rw [show List.filter (fun t => t.2.2)
                ((d, c, false) :: zip3 ds cs bs) =
              List.filter (fun t => t.2.2) (zip3 ds cs bs) from rfl,
            ih cs bs]
          simp
        | true =>
          rw [show List.filter (fun t => t.2.2)
                ((d, c, true) :: zip3 ds cs bs) =
              (d, c, true) :: List.filter (fun t => t.2.2) (zip3 ds cs bs)
              from rfl,
            List.map_cons, List.sum_cons, ih cs bs]
          simp [add_comm]

/-- Claim C5: for equal-length inputs whose final own-event flag is false,
`calc_LL` returns exactly the sum of `log_u(dt_i, c_i)` over the indices
with a set flag minus the sum of `int_u(dt_i, c_i)` over all indices. -/
theorem calcLL_equal_lengths_spec (log_u int_u : ℝ → ℝ → ℝ)
    (ds cs : List ℝ) (own : List Bool) (n : ℕ)
    (hds : ds.length = n) (hcs : cs.length = n) (hown : own.length = n)
    (hlast : own.getLast? = some false) :
    CDFSampler.calc_LL log_u int_u ds cs own =
      Except.ok ((∑ i in Finset.range n,
          if own.getD i false then log_u (ds.getD i 0) (cs.getD i 0) else 0)
        - ∑ i in Finset.range n, int_u (ds.getD i 0) (cs.getD i 0)) := by
  simp only [CDFSampler.calc_LL, hlast, Bool.false_eq_true, if_false]
  rw [zip3_filter_map_sum, zip_map_sum, hds, hcs, hown, Nat.min_self,
    Nat.min_self]

/-- Witness for claim C5 on concrete length-2 inputs. -/
theorem calcLL_equal_lengths_spec_witness :
    CDFSampler.calc_LL (fun dt c => dt + c) (fun dt c => dt * c)
        [1, 2] [10, 20] [true, false] =
      Except.ok ((∑ i in Finset.range 2,
          if [true, false].getD i false then
            ([(1 : ℝ), 2].getD i 0) + ([(10 : ℝ), 20].getD i 0) else 0)
        - ∑ i in Finset.range 2,
            ([(1 : ℝ), 2].getD i 0) * ([(10 : ℝ), 20].getD i 0)) :=
  calcLL_equal_lengths_spec _ _ _ _ _ 2 rfl rfl rfl rfl

/-- Claim C6: calling `calc_LL` with a non-empty flag list ending in `true`
always fails with the assertion error, and with a final flag `false` it
always returns normally. -/
theorem calcLL_last_flag_assertion (log_u int_u : ℝ → ℝ → ℝ)
    (ds cs : List ℝ) (own : List Bool) :
    (own.getLast? = some true →
      CDFSampler.calc_LL log_u int_u ds cs own =
        Except.error (PyError.assertionError
          "The last entry cannot be an event.")) ∧
    (own.getLast? = some false →
      ∃ r, CDFSampler.calc_LL log_u int_u ds cs own = Except.ok r) := by
  constructor
  · intro hlast
    simp [CDFSampler.calc_LL, hlast]
  · intro hlast
    refine ⟨((((zip3 ds cs own).filter fun t => t.2.2).map
        fun t => log_u t.1 t.2.1).sum)
      - (((ds.zip cs).map fun p => int_u p.1 p.2).sum), ?_⟩
    simp only [CDFSampler.calc_LL, hlast, Bool.false_eq_true, if_false]

/-- Witness for claim C6 on concrete singleton flag lists. -/
theorem calcLL_last_flag_assertion_witness :
    CDFSampler.calc_LL (fun dt c => dt + c) (fun dt c => dt * c)
        [1] [10] [true] =
      Except.error (PyError.assertionError
        "The last entry cannot be an event.") ∧
    ∃ r, CDFSampler.calc_LL (fun dt c => dt + c) (fun dt c => dt * c)
        [1] [10] [false] = Except.ok r :=
  ⟨(calcLL_last_flag_assertion _ _ [1] [10] [true]).1 rfl,
   (calcLL_last_flag_assertion _ _ [1] [10] [false]).2 rfl⟩

/-- Claim C10 counterexample: with `is_own_event = [false]` shorter than the
length-2 delta and bias lists, `calc_LL`'s integral sum still ranges over
both intervals (`min(len ds, len cs) = 2`), so the result is `-50`, not the
`-10` that a three-way common-prefix truncation of both sums would give. -/
theorem calcLL_int_sum_not_truncated_by_flags :
    CDFSampler.calc_LL (fun dt c => dt + c) (fun dt c => dt * c)
        [1, 2] [10, 20] [false] = Except.ok (-50) ∧
    ((-50 : ℝ) ≠ -10) := by
  constructor
  · simp [CDFSampler.calc_LL, zip3]
    norm_num
  · norm_num

/-- Claim C10 amended: for lists of arbitrary (possibly unequal) lengths, no
length-mismatch error is raised: `calc_quad_loss` sums over the common
prefix of length `min(len ds, len cs)`; `calc_LL` (whose final flag must be
false — the assertion reads the last element of the full flag list) truncates
its log sum to `min(min(len ds, len cs), len own)` but its integral sum
still ranges over `min(len ds, len cs)`. -/
theorem calc_truncation_spec (log_u int_u int_u_2 : ℝ → ℝ → ℝ)
    (ds cs : List ℝ) (own : List Bool)
    (hlast : own.getLast? = some false) :
    CDFSampler.calc_quad_loss int_u_2 ds cs =
      ∑ i in Finset.range (min ds.length cs.length),
        int_u_2 (ds.getD i 0) (cs.getD i 0) ∧
    CDFSampler.calc_LL log_u int_u ds cs own =
      Except.ok ((∑ i in Finset.range
            (min (min ds.length cs.length) own.length),
          if own.getD i false then log_u (ds.getD i 0) (cs.getD i 0) else 0)
        - ∑ i in Finset.range (min ds.length cs.length),
            int_u (ds.getD i 0) (cs.getD i 0)) := by
  constructor
  · exact zip_map_sum int_u_2 ds cs
  · have hred : CDFSampler.calc_LL log_u int_u ds cs own =
        Except.ok (((((zip3 ds cs own).filter fun t => t.2.2).map
            fun t => log_u t.1 t.2.1).sum)
          - (((ds.zip cs).map fun p => int_u p.1 p.2).sum)) := by
      simp only [CDFSampler.calc_LL, hlast, Bool.false_eq_true, if_false]
    rw [hred, zip3_filter_map_sum, zip_map_sum]

/-- Witness for the amended claim C10 on concrete unequal-length inputs. -/
theorem calc_truncation_spec_witness :
    CDFSampler.calc_quad_loss (fun dt c => dt * c) [1, 2, 3] [10, 20] =
      ∑ i in Finset.range 2,
        ([(1 : ℝ), 2, 3].getD i 0) * ([(10 : ℝ), 20].getD i 0) ∧
    CDFSampler.calc_LL (fun dt c => dt + c) (fun dt c => dt * c)
        [1, 2, 3] [10, 20] [false] =
      Except.ok ((∑ i in Finset.range 1,
          if [false].getD i false then
            ([(1 : ℝ), 2, 3].getD i 0) + ([(10 : ℝ), 20].getD i 0) else 0)
        - ∑ i in Finset.range 2,
            ([(1 : ℝ), 2, 3].getD i 0) * ([(10 : ℝ), 20].getD i 0)) :=
  calc_truncation_spec _ _ _ [1, 2, 3] [10, 20] [false] rfl

end

end Tpprl
